import Mathlib

/-!
# Verification of `socialmixing.py`

Shallow embedding of the repository `lukemassa/socialmixingmatrix`
(single source file `socialmixing.py`) and proofs about its operations.

Modelling conventions:

* Python floats are modelled as exact rationals (ℚ); the program only adds,
  multiplies and divides values read from its tables, so every claim about
  cell values is stated over ℚ.
* Python dicts are modelled as association lists (`List (key × value)`);
  the dict invariant (no duplicate keys, insertion order) is carried as an
  explicit hypothesis where a claim needs it.
* Code that can raise is modelled in `Except Err`.  The abstract error
  taxonomy of the design (ParseError / LookupError / DataFormatError) is
  used for the concrete Python exceptions: ValueError raised while parsing
  an age-group label ↦ `parseError`; KeyError ↦ `lookupError`; ValueError /
  UnboundLocalError raised while loading the population table ↦
  `dataFormatError`; ZeroDivisionError ↦ `zeroDivisionError`.
* `int(...)` / `float(...)` are modelled on optional-sign digit strings
  (resp. plain decimal strings); Python's underscore / whitespace / unicode
  / exponent extensions never occur in this program's data and are not
  modelled.
-/

/-- Decidable equality of `Except` values, used to evaluate the program on
concrete inputs. -/
instance {ε : Type u} {α : Type v} [DecidableEq ε] [DecidableEq α] :
    DecidableEq (Except ε α)
  | .error a, .error b => decidable_of_iff (a = b) (by simp)
  | .error _, .ok _ => .isFalse (fun h => by cases h)
  | .ok _, .error _ => .isFalse (fun h => by cases h)
  | .ok a, .ok b => decidable_of_iff (a = b) (by simp)

/-- Abstract error outcomes of the program (see the taxonomy note above). -/
inductive Err where
  | parseError
  | lookupError
  | dataFormatError
  | zeroDivisionError
deriving DecidableEq, Repr

/-- Accumulating decimal-digit reader: models the digit part of Python
`int(...)`, failing on any non-digit character. -/
def digitsToNat : Nat → List Char → Option Nat
  | acc, [] => some acc
  | acc, c :: cs => if c.isDigit then digitsToNat (acc * 10 + (c.toNat - 48)) cs else none

/-- Model of Python `int(s)` on a character list: optional sign followed by
one or more digits. -/
def pyInt : List Char → Option Int
  | [] => none
  | '-' :: rest =>
    if rest.isEmpty then none else (digitsToNat 0 rest).map (fun n => -(n : Int))
  | '+' :: rest =>
    if rest.isEmpty then none else (digitsToNat 0 rest).map (fun n => (n : Int))
  | l => (digitsToNat 0 l).map (fun n => (n : Int))

/-- Model of Python `s.split('-')` on a character list: splits at every
occurrence of the dash, keeping empty pieces. -/
def splitDash : List Char → List (List Char)
  | [] => [[]]
  | c :: rest =>
    if c = '-' then [] :: splitDash rest
    else
      match splitDash rest with
      | [] => [[c]]
      | h :: t => (c :: h) :: t

/-- `AgeMixing._age_group_to_tuple`: given an age group like "0-5" return
(0, 5); any failure of the unpacking or of `int(...)` is a ValueError,
i.e. a `parseError`.  (Note: the code never checks that lower ≤ upper.) -/
def age_group_to_tuple (age_group : String) : Except Err (Int × Int) :=
  match splitDash age_group.data with
  | [lower, upper] =>
    match pyInt lower, pyInt upper with
    | some a, some b => Except.ok (a, b)
    | _, _ => Except.error Err.parseError
  | _ => Except.error Err.parseError

/-- `AgeMixing._is_group_in_group`: is group1 (i.e. "5-10") in group2
(i.e. "0-15").  The code parses group2 first, then group1. -/
def is_group_in_group (group1 group2 : String) : Except Err Bool := do
  let t ← age_group_to_tuple group2
  let m ← age_group_to_tuple group1
  pure (decide (m.1 ≥ t.1 ∧ m.2 ≤ t.2))

/-- The age-proportion table: Python dict from integer age to proportion. -/
abbrev AgeProps := List (Int × ℚ)

/-- Counting helper for `range`: the `n` consecutive integers from `lo`. -/
def intRangeAux : Int → Nat → List Int
  | _, 0 => []
  | lo, n + 1 => lo :: intRangeAux (lo + 1) n

/-- Model of Python `range(lo, hi + 1)` over integers. -/
def intRange (lo hi : Int) : List Int :=
  intRangeAux lo (hi + 1 - lo).toNat

/-- `AgeMixing._proportion_in_group`: what proportion of the population is
in this group (i.e. "0-5").  A missing age in the table is a Python
KeyError, i.e. a `lookupError`. -/
def proportion_in_group (ap : AgeProps) (group : String) : Except Err ℚ := do
  let lu ← age_group_to_tuple group
  (intRange lu.1 lu.2).foldlM
    (fun ret i =>
      match ap.lookup i with
      | some v => Except.ok (ret + v)
      | none => Except.error Err.lookupError)
    0

/-- One row of a mixing matrix: Python dict from column label to value. -/
abbrev MRow := List (String × ℚ)

/-- A mixing matrix: Python dict from row label to row. -/
abbrev MixMatrix := List (String × MRow)

/-- Python `matrix[gi][gj]`: two dict accesses, KeyError if either key is
absent. -/
def lookupCell (m : MixMatrix) (gi gj : String) : Except Err ℚ :=
  match m.lookup gi with
  | none => Except.error Err.lookupError
  | some row =>
    match row.lookup gj with
    | none => Except.error Err.lookupError
    | some v => Except.ok v

/-- `AgeMixing.get_scaled_matrix`: multiply each cell by the proportion of
its row group, the proportion of its column group, and itself.  The input
is a Python dict of dicts (unique keys), so building the result dict in
the nested loop is the same as mapping over rows and cells. -/
def get_scaled_matrix (ap : AgeProps) (m : MixMatrix) : Except Err MixMatrix :=
  m.mapM (fun ri => do
    let newRow ← ri.2.mapM (fun c => do
      let p1 ← proportion_in_group ap ri.1
      let p2 ← proportion_in_group ap c.1
      Except.ok (c.1, p1 * p2 * c.2))
    Except.ok (ri.1, newRow))

/-- Inner loop of `AgeMixing.get_cell_for_new_matrix`
(`for group_j in self.scaled_matrix`), with `group_i` fixed.  Python's
`and` is short-circuit, so the second containment test and the cell access
only run when the previous tests succeed. -/
def cell_inner (m : MixMatrix) (gi ni nj : String) :
    List (String × MRow) → ℚ → Except Err ℚ
  | [], ret => Except.ok ret
  | rj :: rest, ret => do
    let ci ← is_group_in_group gi ni
    if ci then do
      let cj ← is_group_in_group rj.1 nj
      if cj then do
        let v ← lookupCell m gi rj.1
        cell_inner m gi ni nj rest (ret + v)
      else cell_inner m gi ni nj rest ret
    else cell_inner m gi ni nj rest ret

/-- Outer loop of `AgeMixing.get_cell_for_new_matrix`
(`for group_i in self.scaled_matrix`). -/
def cell_outer (m : MixMatrix) (ni nj : String) :
    List (String × MRow) → ℚ → Except Err ℚ
  | [], ret => Except.ok ret
  | ri :: rest, ret => do
    let ret2 ← cell_inner m ri.1 ni nj m ret
    cell_outer m ni nj rest ret2

/-- `AgeMixing.get_cell_for_new_matrix`: find the value of a cell in the
new matrix by summing up all the cells covered by the new groupings.
Both loops run over the keys of the scaled matrix. -/
def get_cell_for_new_matrix (m : MixMatrix) (ni nj : String) : Except Err ℚ :=
  cell_outer m ni nj m 0

/-- `AgeMixing.get_new_matrix`: take the new groups and the scaled matrix
and return the new matrix.  As with `get_scaled_matrix`, building the
result dict in the nested loop is mapping over the (distinct) new groups. -/
def get_new_matrix (m : MixMatrix) (new_groups : List String) : Except Err MixMatrix :=
  new_groups.mapM (fun gi => do
    let row ← new_groups.mapM (fun gj => do
      let v ← get_cell_for_new_matrix m gi gj
      Except.ok (gj, v))
    Except.ok (gi, row))

/-- Fractional part reader for `float(...)`: digits, optionally around one
dot. -/
def decCharsToRat (l : List Char) : Option ℚ :=
  let intPart := l.takeWhile (fun c => c ≠ '.')
  let rest := l.dropWhile (fun c => c ≠ '.')
  match rest with
  | [] => if intPart.isEmpty then none else (digitsToNat 0 intPart).map (fun n => (n : ℚ))
  | _ :: fracPart =>
    if fracPart.contains '.' then none
    else if intPart.isEmpty ∧ fracPart.isEmpty then none
    else do
      let ip ← if intPart.isEmpty then some 0 else digitsToNat 0 intPart
      let fp ← if fracPart.isEmpty then some 0 else digitsToNat 0 fracPart
      some ((ip : ℚ) + (fp : ℚ) / ((10 : ℚ) ^ fracPart.length))

/-- Model of Python `float(s)` on plain decimal strings. -/
def pyRat : List Char → Option ℚ
  | [] => none
  | '-' :: rest => (decCharsToRat rest).map (fun q => -q)
  | '+' :: rest => decCharsToRat rest
  | l => decCharsToRat l

/-- One row of the population source table: the three columns
`load_age_proportions` reads (SEX, AGE, and the population-estimate
column selected by `POP_ESTIMATE_COLUMN`), all as raw CSV strings. -/
structure PopRow where
  sex : String
  age : String
  pop : String
deriving DecidableEq, Repr

/-- Python dict assignment `d[k] = v` on an association list: overwrite in
place if the key is present, else append. -/
def dictInsert (k : Int) (v : ℚ) : List (Int × ℚ) → List (Int × ℚ)
  | [] => [(k, v)]
  | p :: rest => if p.1 = k then (k, v) :: rest else p :: dictInsert k v rest

/-- Loop body of the first loop of `AgeMixing.load_age_proportions`: state
is (ret, total-so-far).  `int(row["AGE"])` and `float(row[...])` failures
are ValueErrors on the source table, i.e. `dataFormatError`. -/
def loadStep (st : List (Int × ℚ) × Option ℚ) (row : PopRow) :
    Except Err (List (Int × ℚ) × Option ℚ) :=
  if row.sex = "0" then
    match pyInt row.age.data with
    | none => Except.error Err.dataFormatError
    | some age =>
      if age = 999 then
        match pyRat row.pop.data with
        | none => Except.error Err.dataFormatError
        | some t => Except.ok (st.1, some t)
      else
        match pyRat row.pop.data with
        | none => Except.error Err.dataFormatError
        | some v => Except.ok (dictInsert age v st.1, st.2)
  else Except.ok st

/-- `AgeMixing.load_age_proportions` on an already-parsed CSV row list:
collect both-sexes rows, remember the age-999 sentinel as `total`, then
scale every collected count by the total.  If `total` was never assigned
the scaling loop raises (Python UnboundLocalError, abstracted as
`dataFormatError`) — but only if `ret` is non-empty, since the loop body
never runs on an empty dict.  Division by a zero total is Python's
ZeroDivisionError. -/
def load_age_proportions (rows : List PopRow) : Except Err (List (Int × ℚ)) := do
  let st ← rows.foldlM loadStep ([], none)
  match st.2 with
  | none => if st.1.isEmpty then Except.ok [] else Except.error Err.dataFormatError
  | some t =>
    st.1.mapM (fun p =>
      if t = 0 then Except.error Err.zeroDivisionError else Except.ok (p.1, p.2 / t))

/-- `AgeMixing.format_matrix`, stopped just before the final
`'\n'.join(ret)`: the list `ret` of output lines.  `sorted(...)` with the
lower-bound key is a stable sort, modelled by insertion sort on
(label, lower-bound) pairs; the key function (and hence the whole call)
raises if any label fails to parse.  The cell rendering of Python
`str(float)` is abstracted as a `render` parameter. -/
def format_lines (render : ℚ → String) (matrix : MixMatrix) : Except Err (List String) := do
  let keyed ← matrix.mapM (fun r => do
    let t ← age_group_to_tuple r.1
    Except.ok (r.1, t.1))
  let groups := (List.insertionSort (fun a b => a.2 ≤ b.2) keyed).map (fun p => p.1)
  let dataRows ← groups.mapM (fun gi => do
    let cells ← groups.mapM (fun gj => do
      let v ← lookupCell matrix gi gj
      Except.ok (render v))
    Except.ok (String.intercalate "," (gi :: cells)))
  Except.ok (String.intercalate "," ("Age group" :: groups) :: dataRows)

/-- `AgeMixing.format_matrix`: the joined text output. -/
def format_matrix (render : ℚ → String) (matrix : MixMatrix) : Except Err String :=
  (format_lines render matrix).map (String.intercalate "\n")

/-! ## Derived notions used to state and prove the claims -/

/-- A label the program can parse (its `_age_group_to_tuple` succeeds). -/
def goodLabel (s : String) : Bool := (age_group_to_tuple s).isOk

/-- Pure value of the containment test on two parseable labels (false if
either fails to parse). -/
def containsPure (g1 g2 : String) : Bool :=
  match age_group_to_tuple g1, age_group_to_tuple g2 with
  | Except.ok p, Except.ok t => decide (p.1 ≥ t.1 ∧ p.2 ≤ t.2)
  | _, _ => false

/-- The row labels (dict keys) of a matrix. -/
def matKeys (m : MixMatrix) : List String := m.map (fun r => r.1)

/-- Cell access with default 0 (total counterpart of `lookupCell`). -/
def cellD (m : MixMatrix) (gi gj : String) : ℚ :=
  ((m.lookup gi).bind (fun row => row.lookup gj)).getD 0

/-- Squareness of a matrix as the program needs it: every (row key, row
key) pair can be looked up as a cell. -/
def squareB (m : MixMatrix) : Bool :=
  (matKeys m).all (fun gi => (matKeys m).all (fun gj =>
    ((m.lookup gi).bind (fun row => row.lookup gj)).isSome))

/-- All row labels of a matrix are parseable. -/
def goodMatrix (m : MixMatrix) : Bool := m.all (fun r => goodLabel r.1)

/-- Population share with default 0 (total counterpart of
`proportion_in_group`). -/
def propD (ap : AgeProps) (g : String) : ℚ :=
  (proportion_in_group ap g).toOption.getD 0

/-- The sort relation used by `format_matrix` (stable sort on the parsed
lower bound), registered as total and transitive for the sortedness
lemmas. -/
instance : IsTotal (String × Int) (fun a b => a.2 ≤ b.2) :=
  ⟨fun a b => le_total a.2 b.2⟩

instance : IsTrans (String × Int) (fun a b => a.2 ≤ b.2) :=
  ⟨fun _ _ _ h1 h2 => le_trans h1 h2⟩

/-- The parsed lower bound of a label, defaulting to 0 (the sort key of
`format_matrix`). -/
def minKeyD (s : String) : Int :=
  match age_group_to_tuple s with
  | Except.ok p => p.1
  | _ => 0

/-- The rebinned cell value as a pure double sum over the scaled matrix:
the (row key, row key) pairs whose groups are contained in the new row and
column groups. -/
def cellSpec (m : MixMatrix) (ni nj : String) : ℚ :=
  (m.map (fun ri =>
    if containsPure ri.1 ni then
      (m.map (fun rj => if containsPure rj.1 nj then cellD m ri.1 rj.1 else 0)).sum
    else 0)).sum

/-- The sum of every cell of a matrix. -/
def totalMass (m : MixMatrix) : ℚ :=
  (m.map (fun r => (r.2.map (fun c => c.2)).sum)).sum

/-- Pure mirror of `loadStep` on rows whose fields parse (used to state
what `load_age_proportions` computes). -/
def pureStep (st : List (Int × ℚ) × Option ℚ) (row : PopRow) :
    List (Int × ℚ) × Option ℚ :=
  if row.sex = "0" then
    match pyInt row.age.data, pyRat row.pop.data with
    | some age, some v => if age = 999 then (st.1, some v) else (dictInsert age v st.1, st.2)
    | _, _ => st
  else st

/-- The raw (unnormalized) both-sexes counts collected by the first loop of
`load_age_proportions`. -/
def rawCounts (rows : List PopRow) : List (Int × ℚ) :=
  (rows.foldl pureStep ([], none)).1

/-- The total from the last both-sexes sentinel (age 999) row, if any. -/
def lastTotal (rows : List PopRow) : Option ℚ :=
  (rows.foldl pureStep ([], none)).2

/-! ## Basic bridge lemmas -/

theorem except_bind_ok {α β : Type} (a : α) (f : α → Except Err β) :
    (Except.ok a >>= f : Except Err β) = f a := rfl

theorem goodLabel_exists {s : String} (h : goodLabel s = true) :
    ∃ p, age_group_to_tuple s = Except.ok p := by
  unfold goodLabel at h
  cases e : age_group_to_tuple s with
  | ok p => exact ⟨p, rfl⟩
  | error e' => rw [e] at h; simp [Except.isOk, Except.toBool] at h

theorem contains_ok {g1 g2 : String} (h1 : goodLabel g1 = true) (h2 : goodLabel g2 = true) :
    is_group_in_group g1 g2 = Except.ok (containsPure g1 g2) := by
  obtain ⟨p1, e1⟩ := goodLabel_exists h1
  obtain ⟨p2, e2⟩ := goodLabel_exists h2
  simp only [is_group_in_group, containsPure, e1, e2]
  rfl

theorem contains_refl {g : String} (h : goodLabel g = true) : containsPure g g = true := by
  obtain ⟨p, e⟩ := goodLabel_exists h
  simp [containsPure, e]

theorem goodMatrix_mem {m : MixMatrix} (h : goodMatrix m = true)
    {r : String × MRow} (hr : r ∈ m) : goodLabel r.1 = true := by
  simp only [goodMatrix, List.all_eq_true] at h
  exact h r hr

theorem mem_matKeys {m : MixMatrix} {r : String × MRow} (hr : r ∈ m) :
    r.1 ∈ matKeys m :=
  List.mem_map_of_mem _ hr

theorem lookupCell_ok {m : MixMatrix} {gi gj : String} (hsq : squareB m = true)
    (hi : gi ∈ matKeys m) (hj : gj ∈ matKeys m) :
    lookupCell m gi gj = Except.ok (cellD m gi gj) := by
  simp only [squareB, List.all_eq_true] at hsq
  have hs := hsq gi hi gj hj
  cases e1 : m.lookup gi with
  | none => rw [e1] at hs; simp at hs
  | some row =>
    cases e2 : row.lookup gj with
    | none => rw [e1] at hs; simp [e2] at hs
    | some v => simp [lookupCell, cellD, e1, e2]

theorem mem_intRangeAux {n : Nat} : ∀ {lo i : Int},
    i ∈ intRangeAux lo n ↔ lo ≤ i ∧ i < lo + n := by
  induction n with
  | zero => intro lo i; simp [intRangeAux]
  | succ n ih => intro lo i; simp [intRangeAux, ih]; omega

theorem mem_intRange {lo hi i : Int} : i ∈ intRange lo hi ↔ lo ≤ i ∧ i ≤ hi := by
  unfold intRange
  rw [mem_intRangeAux]
  omega

/-! ## Characterizing the rebinning loops -/

theorem cell_inner_ok (m : MixMatrix) (gi ni nj : String)
    (hni : goodLabel ni = true) (hnj : goodLabel nj = true) (hgi : goodLabel gi = true)
    (hgiK : gi ∈ matKeys m) (hsq : squareB m = true)
    (l : List (String × MRow)) (ret : ℚ)
    (hl : ∀ r ∈ l, goodLabel r.1 = true ∧ r.1 ∈ matKeys m) :
    cell_inner m gi ni nj l ret = Except.ok (ret +
      if containsPure gi ni then
        (l.map (fun rj => if containsPure rj.1 nj then cellD m gi rj.1 else 0)).sum
      else 0) := by
  induction l generalizing ret with
  | nil => cases containsPure gi ni <;> simp [cell_inner]
  | cons rj rest ih =>
    obtain ⟨hgj, hgjK⟩ := hl rj (by simp)
    have hrest : ∀ r ∈ rest, goodLabel r.1 = true ∧ r.1 ∈ matKeys m :=
      fun r hr => hl r (List.mem_cons_of_mem rj hr)
    simp only [cell_inner]
    rw [contains_ok hgi hni, except_bind_ok]
    cases hci : containsPure gi ni with
    | false =>
      simp only [Bool.false_eq_true, if_false]
      rw [ih ret hrest, hci]
      simp
    | true =>
      simp only [if_true]
      rw [contains_ok hgj hnj, except_bind_ok]
      cases hcj : containsPure rj.1 nj with
      | false =>
        simp only [Bool.false_eq_true, if_false]
        rw [ih ret hrest, hci]
        simp [hcj]
      | true =>
        simp only [if_true]
        rw [lookupCell_ok hsq hgiK hgjK, except_bind_ok, ih _ hrest, hci]
        simp only [if_true, List.map_cons, List.sum_cons, hcj]
        congr 1
        ring

theorem cell_outer_ok (m : MixMatrix) (ni nj : String)
    (hni : goodLabel ni = true) (hnj : goodLabel nj = true)
    (hm : goodMatrix m = true) (hsq : squareB m = true)
    (l : List (String × MRow)) (ret : ℚ)
    (hl : ∀ r ∈ l, goodLabel r.1 = true ∧ r.1 ∈ matKeys m) :
    cell_outer m ni nj l ret = Except.ok (ret +
      (l.map (fun ri =>
        if containsPure ri.1 ni then
          (m.map (fun rj => if containsPure rj.1 nj then cellD m ri.1 rj.1 else 0)).sum
        else 0)).sum) := by
  induction l generalizing ret with
  | nil => simp [cell_outer]
  | cons ri rest ih =>
    obtain ⟨hgi, hgiK⟩ := hl ri (by simp)
    have hrest : ∀ r ∈ rest, goodLabel r.1 = true ∧ r.1 ∈ matKeys m :=
      fun r hr => hl r (List.mem_cons_of_mem ri hr)
    simp only [cell_outer]
    rw [cell_inner_ok m ri.1 ni nj hni hnj hgi hgiK hsq m ret
      (fun r hr => ⟨goodMatrix_mem hm hr, mem_matKeys hr⟩), except_bind_ok,
      ih _ hrest]
    simp only [List.map_cons, List.sum_cons]
    congr 1
    ring

theorem get_cell_ok {m : MixMatrix} {ni nj : String}
    (hm : goodMatrix m = true) (hsq : squareB m = true)
    (hni : goodLabel ni = true) (hnj : goodLabel nj = true) :
    get_cell_for_new_matrix m ni nj = Except.ok (cellSpec m ni nj) := by
  unfold get_cell_for_new_matrix cellSpec
  rw [cell_outer_ok m ni nj hni hnj hm hsq m 0
    (fun r hr => ⟨goodMatrix_mem hm hr, mem_matKeys hr⟩)]
  rw [zero_add]

theorem new_row_ok {m : MixMatrix} (hm : goodMatrix m = true) (hsq : squareB m = true)
    {gi : String} (hgi : goodLabel gi = true)
    (ngs : List String) (hn : ∀ n ∈ ngs, goodLabel n = true) :
    (ngs.mapM (fun gj => do
        let v ← get_cell_for_new_matrix m gi gj
        Except.ok (gj, v)) : Except Err MRow) =
      Except.ok (ngs.map (fun gj => (gj, cellSpec m gi gj))) := by
  induction ngs with
  | nil => rfl
  | cons gj rest ih =>
    have hgj := hn gj (by simp)
    have hrest : ∀ n ∈ rest, goodLabel n = true :=
      fun n hr => hn n (List.mem_cons_of_mem gj hr)
    rw [List.mapM_cons, get_cell_ok hm hsq hgi hgj, except_bind_ok, ih hrest]
    rfl

theorem new_rows_ok {m : MixMatrix} (hm : goodMatrix m = true) (hsq : squareB m = true)
    (ngs : List String) (hn : ∀ n ∈ ngs, goodLabel n = true)
    (l : List String) (hl : ∀ n ∈ l, goodLabel n = true) :
    (l.mapM (fun gi => do
        let row ← ngs.mapM (fun gj => do
          let v ← get_cell_for_new_matrix m gi gj
          Except.ok (gj, v))
        Except.ok (gi, row)) : Except Err MixMatrix) =
      Except.ok (l.map (fun gi => (gi, ngs.map (fun gj => (gj, cellSpec m gi gj))))) := by
  induction l with
  | nil => rfl
  | cons gi rest ih =>
    have hgi := hl gi (by simp)
    have hrest : ∀ n ∈ rest, goodLabel n = true :=
      fun n hr => hl n (List.mem_cons_of_mem gi hr)
    rw [List.mapM_cons, new_row_ok hm hsq hgi ngs hn, except_bind_ok, except_bind_ok,
      ih hrest]
    rfl

theorem get_new_matrix_ok {m : MixMatrix} (hm : goodMatrix m = true) (hsq : squareB m = true)
    (ngs : List String) (hn : ∀ n ∈ ngs, goodLabel n = true) :
    get_new_matrix m ngs =
      Except.ok (ngs.map (fun gi => (gi, ngs.map (fun gj => (gj, cellSpec m gi gj))))) :=
  new_rows_ok hm hsq ngs hn ngs hn

/-! ## Sum manipulation helpers -/

theorem sum_map_ite_filter {α : Type} (l : List α) (p : α → Bool) (f : α → ℚ) :
    ((l.filter p).map f).sum = (l.map (fun x => if p x then f x else 0)).sum := by
  induction l with
  | nil => rfl
  | cons a t ih => cases h : p a <;> simp [List.filter_cons, h, ih]

theorem sum_map_add {α : Type} (l : List α) (f g : α → ℚ) :
    (l.map (fun x => f x + g x)).sum = (l.map f).sum + (l.map g).sum := by
  induction l with
  | nil => simp
  | cons a t ih => simp only [List.map_cons, List.sum_cons, ih]; ring

theorem sum_map_swap {α β : Type} (l1 : List α) (l2 : List β) (f : α → β → ℚ) :
    (l1.map (fun a => (l2.map (fun b => f a b)).sum)).sum =
      (l2.map (fun b => (l1.map (fun a => f a b)).sum)).sum := by
  induction l1 with
  | nil => simp
  | cons a t ih =>
    rw [List.map_cons, List.sum_cons, ih, ← sum_map_add]
    simp only [List.map_cons, List.sum_cons]

theorem sum_map_count {α : Type} (l : List α) (p : α → Bool) (c : ℚ) :
    (l.map (fun x => if p x then c else 0)).sum = (l.countP p : ℚ) * c := by
  induction l with
  | nil => simp
  | cons a t ih =>
    cases h : p a
    · simp [List.countP_cons, h, ih]
    · simp only [List.map_cons, List.sum_cons, List.countP_cons, h, if_true, ih]
      push_cast
      ring

theorem cellSpec_filter (m : MixMatrix) (ni nj : String) :
    cellSpec m ni nj =
      ((m.filter (fun ri => containsPure ri.1 ni)).map (fun ri =>
        ((m.filter (fun rj => containsPure rj.1 nj)).map (fun rj =>
          cellD m ri.1 rj.1)).sum)).sum := by
  unfold cellSpec
  simp only [sum_map_ite_filter]

theorem lookup_map_pair {β : Type} (l : List String) (f : String → β) (x : String)
    (hx : x ∈ l) : (l.map (fun g => (g, f g))).lookup x = some (f x) := by
  induction l with
  | nil => cases hx
  | cons a t ih =>
    by_cases h : x = a
    · subst h; simp [List.lookup]
    · have hxt : x ∈ t := by
        cases hx with
        | head => exact absurd rfl h
        | tail _ hmem => exact hmem
      have hb : (x == a) = false := by simp [h]
      simp [List.lookup, hb, ih hxt]

theorem except_ok_of_bind {α β : Type} {x : Except Err α} {f : α → Except Err β} {b : β}
    (h : (x >>= f) = Except.ok b) : ∃ a, x = Except.ok a ∧ f a = Except.ok b := by
  cases x with
  | ok a => exact ⟨a, rfl, h⟩
  | error e => exact Except.noConfusion h

theorem propD_eq {ap : AgeProps} {g : String} {q : ℚ}
    (h : proportion_in_group ap g = Except.ok q) : propD ap g = q := by
  simp [propD, h, Except.toOption]

/-! ## Claim C1 -/

/-- Claim C1: for every scaled matrix (a square matrix with parseable
labels, per the data-model invariant under which rows = columns) and every
pair of parseable new group labels, the rebinned cell value equals the sum
of scaledMatrix[g_i][g_j] over all pairs (g_i, g_j) of original group
labels whose ranges are contained in the new row and column groups, and
`get_new_matrix` fills every cell of the cartesian product of the new
labels with exactly this sum. -/
theorem C1_rebin_cell_is_containment_sum (m : MixMatrix) (new_groups : List String)
    (hm : goodMatrix m = true) (hsq : squareB m = true)
    (hn : ∀ n ∈ new_groups, goodLabel n = true) :
    (∀ ni nj : String, goodLabel ni = true → goodLabel nj = true →
      get_cell_for_new_matrix m ni nj = Except.ok
        (((m.filter (fun ri => containsPure ri.1 ni)).map (fun ri =>
          ((m.filter (fun rj => containsPure rj.1 nj)).map (fun rj =>
            cellD m ri.1 rj.1)).sum)).sum)) ∧
    (∃ out, get_new_matrix m new_groups = Except.ok out ∧
      ∀ ni ∈ new_groups, ∀ nj ∈ new_groups,
        ((out.lookup ni).bind (fun row => row.lookup nj)) = some
          (((m.filter (fun ri => containsPure ri.1 ni)).map (fun ri =>
            ((m.filter (fun rj => containsPure rj.1 nj)).map (fun rj =>
              cellD m ri.1 rj.1)).sum)).sum)) := by
  constructor
  · intro ni nj hni hnj
    rw [get_cell_ok hm hsq hni hnj, cellSpec_filter]
  · refine ⟨_, get_new_matrix_ok hm hsq new_groups hn, ?_⟩
    intro ni hni nj hnj
    rw [lookup_map_pair new_groups _ ni hni]
    show (new_groups.map (fun gj => (gj, cellSpec m ni gj))).lookup nj = _
    rw [lookup_map_pair new_groups _ nj hnj, cellSpec_filter]

/-- Witness for C1 at a concrete 1×1 scaled matrix and one new group. -/
theorem C1_rebin_cell_is_containment_sum_witness :
    get_cell_for_new_matrix [("0-4", [("0-4", (3 : ℚ))])] "0-9" "0-9" = Except.ok
      ((([("0-4", [("0-4", (3 : ℚ))])].filter
          (fun ri => containsPure ri.1 "0-9")).map (fun ri =>
        (([("0-4", [("0-4", (3 : ℚ))])].filter
            (fun rj => containsPure rj.1 "0-9")).map (fun rj =>
          cellD [("0-4", [("0-4", (3 : ℚ))])] ri.1 rj.1)).sum)).sum) :=
  (C1_rebin_cell_is_containment_sum [("0-4", [("0-4", (3 : ℚ))])] ["0-9"]
    (by decide) (by decide) (by decide)).1 "0-9" "0-9" (by decide) (by decide)

/-! ## Claim C2 -/

theorem scale_row_inv (ap : AgeProps) (gi : String) (l out : MRow)
    (h : (l.mapM (fun c => do
        let p1 ← proportion_in_group ap gi
        let p2 ← proportion_in_group ap c.1
        Except.ok (c.1, p1 * p2 * c.2)) : Except Err MRow) = Except.ok out) :
    out = l.map (fun c => (c.1, c.2 * propD ap gi * propD ap c.1)) := by
  induction l generalizing out with
  | nil =>
    rw [List.mapM_nil] at h
    cases h
    rfl
  | cons c t ih =>
    rw [List.mapM_cons] at h
    obtain ⟨x, hx, h2⟩ := except_ok_of_bind h
    obtain ⟨xs, hxs, h3⟩ := except_ok_of_bind h2
    obtain ⟨q1, hq1, hx2⟩ := except_ok_of_bind hx
    obtain ⟨q2, hq2, hx3⟩ := except_ok_of_bind hx2
    cases hx3
    cases h3
    rw [List.map_cons, ← ih xs hxs, propD_eq hq1, propD_eq hq2]
    have : c.2 * q1 * q2 = q1 * q2 * c.2 := by ring
    rw [this]

/-- Claim C2: whenever `get_scaled_matrix` succeeds, its output has exactly
the rows and columns of the input (no cells added or removed), and each
cell holds the input value times the population share of its row label
times the population share of its column label. -/
theorem C2_scaled_matrix_cells (ap : AgeProps) (m out : MixMatrix)
    (h : get_scaled_matrix ap m = Except.ok out) :
    out = m.map (fun ri => (ri.1, ri.2.map (fun c =>
      (c.1, c.2 * propD ap ri.1 * propD ap c.1)))) := by
  unfold get_scaled_matrix at h
  induction m generalizing out with
  | nil =>
    rw [List.mapM_nil] at h
    cases h
    rfl
  | cons ri t ih =>
    rw [List.mapM_cons] at h
    obtain ⟨x, hx, h2⟩ := except_ok_of_bind h
    obtain ⟨xs, hxs, h3⟩ := except_ok_of_bind h2
    obtain ⟨newRow, hrow, hx2⟩ := except_ok_of_bind hx
    cases hx2
    cases h3
    rw [List.map_cons, ← ih xs hxs, scale_row_inv ap ri.1 ri.2 newRow hrow]

/-- Witness for C2 at a concrete table and matrix. -/
theorem C2_scaled_matrix_cells_witness :
    [("0-0", [("0-0", (1 : ℚ))])] =
      [("0-0", [("0-0", (4 : ℚ))])].map (fun ri => (ri.1, ri.2.map (fun c =>
        (c.1, c.2 * propD [(0, 1/2)] ri.1 * propD [(0, 1/2)] c.1)))) :=
  C2_scaled_matrix_cells [(0, 1/2)] [("0-0", [("0-0", (4 : ℚ))])]
    [("0-0", [("0-0", (1 : ℚ))])] (by with_unfolding_all decide)

/-! ## More shared helpers: monadic folds that succeed, inverted ranges -/

theorem mapM_ok_of_ok {α β : Type} (f : α → Except Err β) (g : α → β) :
    ∀ (l : List α), (∀ a ∈ l, f a = Except.ok (g a)) →
      l.mapM f = Except.ok (l.map g) := by
  intro l
  induction l with
  | nil => intro _; rfl
  | cons a t ih =>
    intro h
    rw [List.mapM_cons, h a (by simp), except_bind_ok,
      ih (fun x hx => h x (List.mem_cons_of_mem a hx)), except_bind_ok]
    rfl

theorem prop_inverted {ap : AgeProps} {s : String} {L U : Int}
    (hparse : age_group_to_tuple s = Except.ok (L, U)) (hUL : U < L) :
    proportion_in_group ap s = Except.ok 0 := by
  unfold proportion_in_group
  rw [hparse, except_bind_ok]
  have he : intRange L U = [] := by
    unfold intRange
    have h0 : (U + 1 - L).toNat = 0 := by omega
    rw [h0]
    rfl
  rw [he]
  rfl

theorem propFold_ok (ap : AgeProps) :
    ∀ (l : List Int) (acc : ℚ), (∀ i ∈ l, (ap.lookup i).isSome = true) →
      (l.foldlM (fun ret i =>
          match ap.lookup i with
          | some v => Except.ok (ret + v)
          | none => Except.error Err.lookupError) acc : Except Err ℚ) =
        Except.ok (acc + (l.map (fun i => (ap.lookup i).getD 0)).sum) := by
  intro l
  induction l with
  | nil =>
    intro acc _
    simp only [List.foldlM_nil, List.map_nil, List.sum_nil, add_zero]
    rfl
  | cons i t ih =>
    intro acc h
    have hi := h i (by simp)
    cases e : ap.lookup i with
    | none => rw [e] at hi; simp at hi
    | some v =>
      rw [List.foldlM_cons, e, except_bind_ok,
        ih (acc + v) (fun j hj => h j (List.mem_cons_of_mem i hj))]
      congr 1
      rw [List.map_cons, List.sum_cons, e]
      show acc + v + _ = acc + (v + _)
      ring

theorem propFold_err (ap : AgeProps) :
    ∀ (l : List Int) (acc : ℚ), (∃ i ∈ l, ap.lookup i = none) →
      (l.foldlM (fun ret i =>
          match ap.lookup i with
          | some v => Except.ok (ret + v)
          | none => Except.error Err.lookupError) acc : Except Err ℚ) =
        Except.error Err.lookupError := by
  intro l
  induction l with
  | nil => intro acc h; simp at h
  | cons i t ih =>
    intro acc h
    cases e : ap.lookup i with
    | none => rw [List.foldlM_cons, e]; rfl
    | some v =>
      rw [List.foldlM_cons, e, except_bind_ok]
      apply ih
      obtain ⟨j, hj, hje⟩ := h
      rcases List.mem_cons.mp hj with h1 | h2
      · rw [h1] at hje; rw [e] at hje; cases hje
      · exact ⟨j, h2, hje⟩

/-! ## Claim C5 -/

/-- Counterexample to claim C5 as stated: the label "10-5" (min > max)
does not fail with a ParseError; `_age_group_to_tuple` returns (10, 5). -/
theorem C5_parse_counterexample :
    age_group_to_tuple "10-5" = Except.ok (10, 5) := by decide

/-- Claim C5 (amended): the label parser fails with a ParseError for every
label that does not split on "-" into exactly two integer-parseable
pieces (for example "abc"), but it does NOT check the order of the
bounds: a label "L-U" with L > U (for example "10-5") parses
successfully to (L, U). -/
theorem C5_parse_failures_amended :
    age_group_to_tuple "abc" = Except.error Err.parseError ∧
    (∀ s : String,
      (match splitDash s.data with
       | [a, b] => (pyInt a).isNone || (pyInt b).isNone
       | _ => true) = true →
      age_group_to_tuple s = Except.error Err.parseError) ∧
    age_group_to_tuple "10-5" = Except.ok (10, 5) := by
  refine ⟨by decide, ?_, by decide⟩
  intro s hs
  unfold age_group_to_tuple
  split
  · rename_i lower upper heq
    rw [heq] at hs
    simp only [] at hs
    split
    · rename_i a b ha hb
      rw [ha, hb] at hs
      simp at hs
    · rfl
  · rfl

/-- Witness for the general part of the amended C5. -/
theorem C5_parse_failures_amended_witness :
    age_group_to_tuple "1-2-3" = Except.error Err.parseError :=
  C5_parse_failures_amended.2.1 "1-2-3" (by decide)

/-! ## Claim C10 -/

/-- Claim C10: inverted labels "L-U" with L > U parse without raising
(e.g. "10-5" gives (10, 5)); the population share of such a label is the
empty sum 0 for any table; and matrices / new groups made of inverted
labels flow through scaling and rebinning without any error. -/
theorem C10_inverted_labels_flow_through :
    age_group_to_tuple "10-5" = Except.ok (10, 5) ∧
    (∀ (ap : AgeProps) (s : String) (L U : Int),
      age_group_to_tuple s = Except.ok (L, U) → U < L →
      proportion_in_group ap s = Except.ok 0) ∧
    (∀ (ap : AgeProps) (m : MixMatrix),
      (∀ r ∈ m, ∃ L U, age_group_to_tuple r.1 = Except.ok (L, U) ∧ U < L) →
      (∀ r ∈ m, ∀ c ∈ r.2, ∃ L U, age_group_to_tuple c.1 = Except.ok (L, U) ∧ U < L) →
      get_scaled_matrix ap m = Except.ok
        (m.map (fun ri => (ri.1, ri.2.map (fun c => (c.1, 0)))))) ∧
    (∀ (m : MixMatrix) (ngs : List String),
      goodMatrix m = true → squareB m = true →
      (∀ n ∈ ngs, ∃ L U, age_group_to_tuple n = Except.ok (L, U) ∧ U < L) →
      (get_new_matrix m ngs).isOk = true) := by
  refine ⟨by decide, fun ap s L U h1 h2 => prop_inverted h1 h2, ?_, ?_⟩
  · intro ap m hrows hcols
    unfold get_scaled_matrix
    apply mapM_ok_of_ok
    intro ri hri
    obtain ⟨L, U, hpi, hULi⟩ := hrows ri hri
    rw [show (ri.2.mapM (fun c => do
        let p1 ← proportion_in_group ap ri.1
        let p2 ← proportion_in_group ap c.1
        Except.ok (c.1, p1 * p2 * c.2)) : Except Err MRow) =
      Except.ok (ri.2.map (fun c => (c.1, 0))) from ?_, except_bind_ok]
    apply mapM_ok_of_ok
    intro c hc
    obtain ⟨L2, U2, hpc, hULc⟩ := hcols ri hri c hc
    rw [prop_inverted hpi hULi, except_bind_ok, prop_inverted hpc hULc, except_bind_ok,
      zero_mul, zero_mul]
  · intro m ngs hm hsq hngs
    have hn : ∀ n ∈ ngs, goodLabel n = true := by
      intro n hn'
      obtain ⟨L, U, hp, _⟩ := hngs n hn'
      unfold goodLabel
      rw [hp]
      rfl
    rw [get_new_matrix_ok hm hsq ngs hn]
    rfl

/-- Witness for C10: the empty table and an inverted label. -/
theorem C10_inverted_labels_flow_through_witness :
    proportion_in_group [] "10-5" = Except.ok 0 :=
  C10_inverted_labels_flow_through.2.1 [] "10-5" 10 5 (by decide) (by decide)

/-! ## Claim C6 -/

/-- Claim C6: for a label parsing to (L, U) with L ≤ U, the population
share is the sum of the table entries over every integer age from L to U
inclusive when all those ages are present, and it fails with a
LookupError when any age in [L, U] is absent from the table. -/
theorem C6_population_share (ap : AgeProps) (s : String) (L U : Int)
    (hparse : age_group_to_tuple s = Except.ok (L, U)) (hLU : L ≤ U) :
    ((∀ i ∈ intRange L U, (ap.lookup i).isSome = true) →
      proportion_in_group ap s =
        Except.ok (((intRange L U).map (fun i => (ap.lookup i).getD 0)).sum)) ∧
    ((∃ i ∈ intRange L U, ap.lookup i = none) →
      proportion_in_group ap s = Except.error Err.lookupError) := by
  constructor
  · intro hall
    unfold proportion_in_group
    rw [hparse, except_bind_ok, propFold_ok ap (intRange L U) 0 hall, zero_add]
  · intro hmiss
    unfold proportion_in_group
    rw [hparse, except_bind_ok, propFold_err ap (intRange L U) 0 hmiss]

/-- Witness for C6: both halves at concrete tables. -/
theorem C6_population_share_witness :
    proportion_in_group [(5, (1 : ℚ)/3), (6, 1/4)] "5-6" =
      Except.ok (((intRange 5 6).map
        (fun i => (([(5, (1 : ℚ)/3), (6, 1/4)] : AgeProps).lookup i).getD 0)).sum) ∧
    proportion_in_group [(5, (1 : ℚ)/3)] "5-6" = Except.error Err.lookupError :=
  ⟨(C6_population_share [(5, (1 : ℚ)/3), (6, 1/4)] "5-6" 5 6 (by decide) (by decide)).1
      (by decide),
   (C6_population_share [(5, (1 : ℚ)/3)] "5-6" 5 6 (by decide) (by decide)).2
      ⟨6, by decide, by decide⟩⟩

/-! ## Association list lemmas and single-hit sums -/

theorem lookup_self_assoc {β : Type} :
    ∀ (l : List (String × β)), (l.map (fun r => r.1)).Nodup →
      ∀ {r : String × β}, r ∈ l → l.lookup r.1 = some r.2 := by
  intro l
  induction l with
  | nil => intro _ r hr; cases hr
  | cons a t ih =>
    intro hnd r hr
    rw [List.map_cons] at hnd
    rcases List.mem_cons.mp hr with rfl | hmem
    · simp [List.lookup]
    · have hnd' := (List.nodup_cons.mp hnd).2
      have hne : r.1 ≠ a.1 := by
        intro hc
        exact (List.nodup_cons.mp hnd).1
          (hc ▸ List.mem_map_of_mem (fun x => x.1) hmem)
      have hb : (r.1 == a.1) = false := by simp [hne]
      simp [List.lookup, hb, ih hnd' hmem]

theorem map_lookup_getD (row : MRow) (hnd : (row.map (fun c => c.1)).Nodup) :
    (row.map (fun c => c.1)).map (fun k => (row.lookup k).getD 0) =
      row.map (fun c => c.2) := by
  induction row with
  | nil => rfl
  | cons c t ih =>
    rw [List.map_cons] at hnd
    have h1 : c.1 ∉ t.map (fun c => c.1) := (List.nodup_cons.mp hnd).1
    have ih' := ih (List.nodup_cons.mp hnd).2
    simp only [List.map_cons]
    congr 1
    · simp [List.lookup]
    · rw [← ih']
      apply List.map_congr_left
      intro k hk
      have hne : (k == c.1) = false := by
        simp only [beq_eq_false_iff_ne, ne_eq]
        intro hc
        exact h1 (hc ▸ hk)
      simp [List.lookup, hne]

theorem sum_ite_single (g : String) (f : String × MRow → ℚ) (q : String → Bool) :
    ∀ (l : List (String × MRow)) (r0 : String × MRow), r0 ∈ l → r0.1 = g →
      (l.map (fun r => r.1)).Nodup →
      (∀ r ∈ l, (q r.1 = true ↔ r.1 = g)) →
      (l.map (fun r => if q r.1 then f r else 0)).sum = f r0 := by
  intro l
  induction l with
  | nil => intro r0 h0; cases h0
  | cons a t ih =>
    intro r0 h0 h1 hnd hq
    rw [List.map_cons] at hnd
    have hndh : a.1 ∉ t.map (fun r => r.1) := (List.nodup_cons.mp hnd).1
    have hndt : (t.map (fun r => r.1)).Nodup := (List.nodup_cons.mp hnd).2
    rw [List.map_cons, List.sum_cons]
    rcases List.mem_cons.mp h0 with rfl | hmem
    · rw [if_pos ((hq r0 (by simp)).mpr h1)]
      have hzero : (t.map (fun r => if q r.1 then f r else 0)).sum = 0 := by
        apply List.sum_eq_zero
        intro x hx
        obtain ⟨r, hr, rfl⟩ := List.mem_map.mp hx
        cases hqr : q r.1 with
        | false => simp [hqr]
        | true =>
          have hrg : r.1 = g := (hq r (List.mem_cons_of_mem r0 hr)).mp hqr
          exact absurd (hrg.trans h1.symm ▸ List.mem_map_of_mem (fun r => r.1) hr) hndh
      rw [hzero, add_zero]
    · have hag : q a.1 = false := by
        cases hqa : q a.1 with
        | false => rfl
        | true =>
          have : a.1 = g := (hq a (by simp)).mp hqa
          have : a.1 ∈ t.map (fun r => r.1) := by
            rw [this, ← h1]
            exact List.mem_map_of_mem (fun r => r.1) hmem
          exact absurd this hndh
      rw [hag]
      simp only [Bool.false_eq_true, if_false, zero_add]
      exact ih r0 hmem h1 hndt (fun r hr => hq r (List.mem_cons_of_mem a hr))

theorem cellSpec_self {m : MixMatrix} (hm : goodMatrix m = true)
    (hnd : (matKeys m).Nodup)
    (hnn : ∀ g1 ∈ matKeys m, ∀ g2 ∈ matKeys m, containsPure g1 g2 = true → g1 = g2)
    {ri0 rj0 : String × MRow} (hri0 : ri0 ∈ m) (hrj0 : rj0 ∈ m) :
    cellSpec m ri0.1 rj0.1 = cellD m ri0.1 rj0.1 := by
  have hq : ∀ (r0 : String × MRow), r0 ∈ m → ∀ r ∈ m,
      (containsPure r.1 r0.1 = true ↔ r.1 = r0.1) := by
    intro r0 hr0 r hr
    constructor
    · intro hc
      exact hnn r.1 (mem_matKeys hr) r0.1 (mem_matKeys hr0) hc
    · intro he
      rw [he]
      exact contains_refl (goodMatrix_mem hm hr0)
  unfold cellSpec
  rw [sum_ite_single ri0.1
    (fun ri => (m.map (fun rj =>
      if containsPure rj.1 rj0.1 then cellD m ri.1 rj.1 else 0)).sum)
    (fun x => containsPure x ri0.1) m ri0 hri0 rfl hnd (hq ri0 hri0)]
  rw [sum_ite_single rj0.1 (fun rj => cellD m ri0.1 rj.1)
    (fun x => containsPure x rj0.1) m rj0 hrj0 rfl hnd (hq rj0 hrj0)]

/-! ## Claim C3 -/

/-- Counterexample to claim C3 as stated: with nested original groups
("2-3" is contained in "0-10"), rebinning with the matrix's own group
labels does not reproduce the matrix — every containment sum picks up the
nested group's cells, e.g. the (0-10, 0-10) cell becomes 1+2+3+4 = 10
instead of 1. -/
theorem C3_rebin_identity_counterexample :
    get_new_matrix
        [("0-10", [("0-10", (1 : ℚ)), ("2-3", 2)]), ("2-3", [("0-10", 3), ("2-3", 4)])]
        (matKeys [("0-10", [("0-10", (1 : ℚ)), ("2-3", 2)]),
                  ("2-3", [("0-10", 3), ("2-3", 4)])]) =
      Except.ok
        [("0-10", [("0-10", 10), ("2-3", 6)]), ("2-3", [("0-10", 7), ("2-3", 4)])] ∧
    ([("0-10", [("0-10", (10 : ℚ)), ("2-3", 6)]), ("2-3", [("0-10", 7), ("2-3", 4)])] :
        MixMatrix) ≠
      [("0-10", [("0-10", 1), ("2-3", 2)]), ("2-3", [("0-10", 3), ("2-3", 4)])] := by
  constructor
  · with_unfolding_all decide
  · with_unfolding_all decide

/-- Claim C3 (amended): rebinning a scaled matrix with a set of new group
labels identical to its own group labels reproduces it cell-for-cell,
provided no original group is contained in a distinct original group
(which holds for the intended disjoint tilings; the counterexample shows
the unrestricted claim fails for nested groups). -/
theorem C3_rebin_identity_amended (m : MixMatrix)
    (hm : goodMatrix m = true) (hsq : squareB m = true)
    (hnd : (matKeys m).Nodup)
    (hnn : ∀ g1 ∈ matKeys m, ∀ g2 ∈ matKeys m, containsPure g1 g2 = true → g1 = g2) :
    ∃ out, get_new_matrix m (matKeys m) = Except.ok out ∧
      ∀ gi ∈ matKeys m, ∀ gj ∈ matKeys m,
        ((out.lookup gi).bind (fun row => row.lookup gj)) = some (cellD m gi gj) := by
  have hkeys : ∀ n ∈ matKeys m, goodLabel n = true := by
    intro n hn
    obtain ⟨r, hr, rfl⟩ := List.mem_map.mp hn
    exact goodMatrix_mem hm hr
  refine ⟨_, get_new_matrix_ok hm hsq (matKeys m) hkeys, ?_⟩
  intro gi hgi gj hgj
  rw [lookup_map_pair _ _ _ hgi]
  show ((matKeys m).map (fun gj => (gj, cellSpec m gi gj))).lookup gj = _
  rw [lookup_map_pair _ _ _ hgj]
  obtain ⟨ri0, hri0, rfl⟩ := List.mem_map.mp hgi
  obtain ⟨rj0, hrj0, rfl⟩ := List.mem_map.mp hgj
  rw [cellSpec_self hm hnd hnn hri0 hrj0]

/-- Witness for the amended C3 at a 2×2 matrix over disjoint groups. -/
theorem C3_rebin_identity_amended_witness :
    ∃ out, get_new_matrix
        [("0-4", [("0-4", (1 : ℚ)), ("5-9", 2)]), ("5-9", [("0-4", 3), ("5-9", 4)])]
        (matKeys [("0-4", [("0-4", (1 : ℚ)), ("5-9", 2)]),
                  ("5-9", [("0-4", 3), ("5-9", 4)])]) = Except.ok out ∧
      ∀ gi ∈ matKeys [("0-4", [("0-4", (1 : ℚ)), ("5-9", 2)]),
                      ("5-9", [("0-4", 3), ("5-9", 4)])],
        ∀ gj ∈ matKeys [("0-4", [("0-4", (1 : ℚ)), ("5-9", 2)]),
                        ("5-9", [("0-4", 3), ("5-9", 4)])],
          ((out.lookup gi).bind (fun row => row.lookup gj)) = some
            (cellD [("0-4", [("0-4", (1 : ℚ)), ("5-9", 2)]),
                    ("5-9", [("0-4", 3), ("5-9", 4)])] gi gj) :=
  C3_rebin_identity_amended
    [("0-4", [("0-4", (1 : ℚ)), ("5-9", 2)]), ("5-9", [("0-4", 3), ("5-9", 4)])]
    (by decide) (by decide) (by decide) (by decide)

/-! ## Claim C4 -/

theorem sum_map_ite_const {α : Type} (l : List α) (b : Bool) (f : α → ℚ) :
    (l.map (fun x => if b then f x else 0)).sum = if b then (l.map f).sum else 0 := by
  cases b <;> simp

theorem row_cell_sum {m : MixMatrix} (hndK : (matKeys m).Nodup)
    {ri : String × MRow} (hri : ri ∈ m)
    (hperm : (ri.2.map (fun c => c.1)).Perm (matKeys m)) :
    (m.map (fun rj => cellD m ri.1 rj.1)).sum = (ri.2.map (fun c => c.2)).sum := by
  have hlook : m.lookup ri.1 = some ri.2 := lookup_self_assoc m hndK hri
  have h1 : (m.map (fun rj => cellD m ri.1 rj.1)).sum =
      ((matKeys m).map (fun k => (ri.2.lookup k).getD 0)).sum := by
    unfold matKeys
    rw [List.map_map]
    apply congrArg List.sum
    apply List.map_congr_left
    intro rj _
    simp [Function.comp, cellD, hlook]
  have hrowNodup : (ri.2.map (fun c => c.1)).Nodup := hperm.nodup_iff.mpr hndK
  have h2 : ((matKeys m).map (fun k => (ri.2.lookup k).getD 0)).sum =
      ((ri.2.map (fun c => c.1)).map (fun k => (ri.2.lookup k).getD 0)).sum :=
    ((hperm.map (fun k => (ri.2.lookup k).getD 0)).sum_eq).symm
  rw [h1, h2, map_lookup_getD ri.2 hrowNodup]

theorem rebin_total (m : MixMatrix) (ngs : List String)
    (htile : ∀ g ∈ matKeys m, ngs.countP (fun n => containsPure g n) = 1) :
    (ngs.map (fun ni => (ngs.map (fun nj => cellSpec m ni nj)).sum)).sum =
      (m.map (fun ri => (m.map (fun rj => cellD m ri.1 rj.1)).sum)).sum := by
  have stepA : ∀ ni : String, (ngs.map (fun nj => cellSpec m ni nj)).sum =
      (m.map (fun ri => if containsPure ri.1 ni then
        (m.map (fun rj => cellD m ri.1 rj.1)).sum else 0)).sum := by
    intro ni
    unfold cellSpec
    rw [sum_map_swap ngs m (fun nj ri => if containsPure ri.1 ni then
      (m.map (fun rj => if containsPure rj.1 nj then cellD m ri.1 rj.1 else 0)).sum
      else 0)]
    apply congrArg List.sum
    apply List.map_congr_left
    intro ri _
    rw [sum_map_ite_const ngs (containsPure ri.1 ni) (fun nj =>
      (m.map (fun rj => if containsPure rj.1 nj then cellD m ri.1 rj.1 else 0)).sum)]
    cases hci : containsPure ri.1 ni
    · simp
    · rw [if_pos rfl, if_pos rfl,
        sum_map_swap ngs m (fun nj rj =>
          if containsPure rj.1 nj then cellD m ri.1 rj.1 else 0)]
      apply congrArg List.sum
      apply List.map_congr_left
      intro rj hrj
      rw [sum_map_count ngs (fun nj => containsPure rj.1 nj) (cellD m ri.1 rj.1),
        htile rj.1 (mem_matKeys hrj)]
      norm_num
  rw [congrArg List.sum (List.map_congr_left (fun ni _ => stepA ni)),
    sum_map_swap ngs m (fun ni ri => if containsPure ri.1 ni then
      (m.map (fun rj => cellD m ri.1 rj.1)).sum else 0)]
  apply congrArg List.sum
  apply List.map_congr_left
  intro ri hri
  rw [sum_map_count ngs (fun ni => containsPure ri.1 ni)
    ((m.map (fun rj => cellD m ri.1 rj.1)).sum), htile ri.1 (mem_matKeys hri)]
  norm_num

/-- Claim C4: when the new groups exactly tile the original groups (every
original group label is contained in exactly one new group label), the sum
of all cells of the rebinned matrix equals the sum of all cells of the
scaled matrix.  The dict invariants (distinct keys, square with each row
keyed by a permutation of the row labels) are carried as hypotheses. -/
theorem C4_total_mass_preserved (m : MixMatrix) (ngs : List String)
    (hm : goodMatrix m = true) (hsq : squareB m = true)
    (hndK : (matKeys m).Nodup) (hndN : ngs.Nodup)
    (hrows : ∀ r ∈ m, (r.2.map (fun c => c.1)).Perm (matKeys m))
    (hn : ∀ n ∈ ngs, goodLabel n = true)
    (htile : ∀ g ∈ matKeys m, ngs.countP (fun n => containsPure g n) = 1) :
    ∃ out, get_new_matrix m ngs = Except.ok out ∧ totalMass out = totalMass m := by
  refine ⟨_, get_new_matrix_ok hm hsq ngs hn, ?_⟩
  unfold totalMass
  have hfuse : ((ngs.map (fun gi => (gi, ngs.map (fun gj => (gj, cellSpec m gi gj))))).map
      (fun r => (r.2.map (fun c => c.2)).sum)).sum =
      (ngs.map (fun gi => (ngs.map (fun gj => cellSpec m gi gj)).sum)).sum := by
    rw [List.map_map]
    apply congrArg List.sum
    apply List.map_congr_left
    intro gi _
    show ((ngs.map (fun gj => (gj, cellSpec m gi gj))).map (fun c => c.2)).sum = _
    rw [List.map_map]
    rfl
  rw [hfuse, rebin_total m ngs htile]
  apply congrArg List.sum
  apply List.map_congr_left
  intro ri hri
  exact row_cell_sum hndK hri (hrows ri hri)

/-- Witness for C4: a 2×2 matrix over "0-4"/"5-9" rebinned into the single
group "0-9"; total mass 10 is preserved. -/
theorem C4_total_mass_preserved_witness :
    ∃ out, get_new_matrix
        [("0-4", [("0-4", (1 : ℚ)), ("5-9", 2)]), ("5-9", [("0-4", 3), ("5-9", 4)])]
        ["0-9"] = Except.ok out ∧
      totalMass out = totalMass
        [("0-4", [("0-4", (1 : ℚ)), ("5-9", 2)]), ("5-9", [("0-4", 3), ("5-9", 4)])] :=
  C4_total_mass_preserved
    [("0-4", [("0-4", (1 : ℚ)), ("5-9", 2)]), ("5-9", [("0-4", 3), ("5-9", 4)])]
    ["0-9"] (by decide) (by decide) (by decide) (by decide) (by decide) (by decide)
    (by decide)

/-! ## Claim C9 -/

theorem lookup_filter_ne {β : Type} (l : List (String × β)) (k x : String) (hne : x ≠ k) :
    (l.filter (fun r => r.1 != k)).lookup x = l.lookup x := by
  induction l with
  | nil => rfl
  | cons a t ih =>
    rw [List.filter_cons]
    by_cases hak : a.1 = k
    · have hb : (a.1 != k) = false := by simp [hak]
      rw [hb]
      simp only [Bool.false_eq_true, if_false]
      have hxa' : x ≠ a.1 := by rw [hak]; exact hne
      have hxa : (x == a.1) = false := by simp [hxa']
      rw [ih]
      simp [List.lookup, hxa]
    · have hb : (a.1 != k) = true := by simp [hak]
      rw [hb, if_pos rfl]
      cases hxa : (x == a.1)
      · simp [List.lookup, hxa, ih]
      · simp [List.lookup, hxa]

theorem cellD_filter (m : MixMatrix) (g x y : String) (hx : x ≠ g) :
    cellD (m.filter (fun r => r.1 != g)) x y = cellD m x y := by
  unfold cellD
  rw [lookup_filter_ne m g x hx]

theorem matKeys_filter {m : MixMatrix} {g x : String}
    (hx : x ∈ matKeys (m.filter (fun r => r.1 != g))) : x ∈ matKeys m ∧ x ≠ g := by
  obtain ⟨r, hr, rfl⟩ := List.mem_map.mp hx
  have hrf := List.mem_filter.mp hr
  exact ⟨mem_matKeys hrf.1, by simpa using hrf.2⟩

theorem sum_filter_eq {α : Type} (l : List α) (p : α → Bool) (f h : α → ℚ)
    (h0 : ∀ x ∈ l, p x = false → f x = 0)
    (h1 : ∀ x ∈ l, p x = true → f x = h x) :
    (l.map f).sum = ((l.filter p).map h).sum := by
  induction l with
  | nil => rfl
  | cons a t ih =>
    have ih' := ih (fun x hx => h0 x (List.mem_cons_of_mem a hx))
      (fun x hx => h1 x (List.mem_cons_of_mem a hx))
    rw [List.map_cons, List.sum_cons, List.filter_cons]
    cases hp : p a
    · rw [h0 a (by simp) hp, zero_add, ih']
      simp
    · rw [h1 a (by simp) hp, ih']
      simp

theorem cellSpec_erase (m : MixMatrix) (g ni nj : String)
    (hgi : containsPure g ni = false) (hgj : containsPure g nj = false) :
    cellSpec (m.filter (fun r => r.1 != g)) ni nj = cellSpec m ni nj := by
  unfold cellSpec
  symm
  apply sum_filter_eq
  · intro ri _ hp
    have hrig : ri.1 = g := by simpa using hp
    rw [hrig, hgi]
    simp
  · intro ri _ hp
    have hrig : ri.1 ≠ g := by simpa using hp
    cases hc : containsPure ri.1 ni
    · simp
    · rw [if_pos rfl, if_pos rfl]
      apply sum_filter_eq
      · intro rj _ hp2
        have hrjg : rj.1 = g := by simpa using hp2
        rw [hrjg, hgj]
        simp
      · intro rj _ hp2
        cases hc2 : containsPure rj.1 nj
        · simp
        · rw [if_pos rfl, if_pos rfl, cellD_filter m g ri.1 rj.1 hrig]

/-- Claim C9: rebinning never raises an error for parseable new groups
over a square, parseable scaled matrix, even when the new groups leave
gaps or overlap: (a) `get_new_matrix` always succeeds; (b) an original
group contained in no new group contributes nothing — deleting its row
leaves the rebinned matrix unchanged; (c) an original group contained in
two new groups contributes its full value to both: for the single-group
matrix {g: {g: v}} and two new groups containing g, all four cells
indexed by the two new groups receive the full value v. -/
theorem C9_gaps_and_overlaps (m : MixMatrix) (ngs : List String)
    (hm : goodMatrix m = true) (hsq : squareB m = true)
    (hn : ∀ n ∈ ngs, goodLabel n = true) :
    (∃ out, get_new_matrix m ngs = Except.ok out) ∧
    (∀ r0 : String × MRow, r0 ∈ m → (∀ n ∈ ngs, containsPure r0.1 n = false) →
      get_new_matrix (m.filter (fun r => r.1 != r0.1)) ngs = get_new_matrix m ngs) ∧
    (∀ (g n1 n2 : String) (v : ℚ), goodLabel g = true → goodLabel n1 = true →
      goodLabel n2 = true → containsPure g n1 = true → containsPure g n2 = true →
      (get_cell_for_new_matrix [(g, [(g, v)])] n1 n1 = Except.ok v ∧
       get_cell_for_new_matrix [(g, [(g, v)])] n1 n2 = Except.ok v ∧
       get_cell_for_new_matrix [(g, [(g, v)])] n2 n1 = Except.ok v ∧
       get_cell_for_new_matrix [(g, [(g, v)])] n2 n2 = Except.ok v)) := by
  refine ⟨⟨_, get_new_matrix_ok hm hsq ngs hn⟩, ?_, ?_⟩
  · intro r0 hr0 hnone
    have hm' : goodMatrix (m.filter (fun r => r.1 != r0.1)) = true := by
      simp only [goodMatrix, List.all_eq_true]
      intro r hr
      exact goodMatrix_mem hm (List.mem_of_mem_filter hr)
    have hsqm := hsq
    simp only [squareB, List.all_eq_true] at hsqm
    have hsq' : squareB (m.filter (fun r => r.1 != r0.1)) = true := by
      simp only [squareB, List.all_eq_true]
      intro x hx y hy
      obtain ⟨hxm, hxg⟩ := matKeys_filter hx
      obtain ⟨hym, _⟩ := matKeys_filter hy
      rw [lookup_filter_ne m r0.1 x hxg]
      exact hsqm x hxm y hym
    rw [get_new_matrix_ok hm' hsq' ngs hn, get_new_matrix_ok hm hsq ngs hn]
    apply congrArg Except.ok
    apply List.map_congr_left
    intro gi hgi
    have hrow : (ngs.map (fun gj =>
        (gj, cellSpec (m.filter (fun r => r.1 != r0.1)) gi gj))) =
        ngs.map (fun gj => (gj, cellSpec m gi gj)) := by
      apply List.map_congr_left
      intro gj hgj
      rw [cellSpec_erase m r0.1 gi gj (hnone gi hgi) (hnone gj hgj)]
    rw [hrow]
  · intro g n1 n2 v hg h1 h2 hc1 hc2
    have single : ∀ x y : String, goodLabel x = true → goodLabel y = true →
        containsPure g x = true → containsPure g y = true →
        get_cell_for_new_matrix [(g, [(g, v)])] x y = Except.ok v := by
      intro x y hx hy hcx hcy
      have hm1 : goodMatrix [(g, [(g, v)])] = true := by
        simp [goodMatrix, hg]
      have hsq1 : squareB [(g, [(g, v)])] = true := by
        simp [squareB, matKeys, List.lookup]
      rw [get_cell_ok hm1 hsq1 hx hy]
      simp [cellSpec, hcx, hcy, cellD, List.lookup]
    exact ⟨single n1 n1 h1 h1 hc1 hc1, single n1 n2 h1 h2 hc1 hc2,
      single n2 n1 h2 h1 hc2 hc1, single n2 n2 h2 h2 hc2 hc2⟩

/-- Witness for C9: a matrix whose only group "0-4" falls in a gap of the
new groups (which themselves overlap); rebinning still succeeds. -/
theorem C9_gaps_and_overlaps_witness :
    ∃ out, get_new_matrix [("0-4", [("0-4", (2 : ℚ))])] ["10-19", "15-24"] =
      Except.ok out :=
  (C9_gaps_and_overlaps [("0-4", [("0-4", (2 : ℚ))])] ["10-19", "15-24"]
    (by decide) (by decide) (by decide)).1

/-! ## Claim C7 -/

theorem dictInsert_ne_nil (k : Int) (v : ℚ) (d : List (Int × ℚ)) :
    dictInsert k v d ≠ [] := by
  cases d with
  | nil => simp [dictInsert]
  | cons p rest =>
    unfold dictInsert
    by_cases h : p.1 = k <;> simp [h]

theorem loadStep_error {st : List (Int × ℚ) × Option ℚ} {r : PopRow} {err : Err}
    (e : loadStep st r = Except.error err) : err = Err.dataFormatError := by
  unfold loadStep at e
  split at e
  · split at e
    · cases e
      rfl
    · split at e
      · split at e
        · cases e
          rfl
        · cases e
      · split at e
        · cases e
          rfl
        · cases e
  · cases e

theorem loadStep_ok_inv {st st2 : List (Int × ℚ) × Option ℚ} {r : PopRow}
    (hno : r.sex = "0" → pyInt r.age.data ≠ some 999)
    (e : loadStep st r = Except.ok st2) :
    st2.2 = st.2 ∧ (st.1 ≠ [] → st2.1 ≠ []) ∧ (r.sex = "0" → st2.1 ≠ []) := by
  unfold loadStep at e
  split at e
  · rename_i hs
    split at e
    · cases e
    · rename_i a ha
      split at e
      · rename_i h999
        exact absurd (h999 ▸ ha) (hno hs)
      · split at e
        · cases e
        · rename_i v hv
          cases e
          exact ⟨rfl, fun _ => dictInsert_ne_nil a v st.1,
            fun _ => dictInsert_ne_nil a v st.1⟩
  · rename_i hs
    cases e
    exact ⟨rfl, fun h => h, fun hs' => absurd hs' hs⟩

theorem loadFold_noSentinel :
    ∀ (rows : List PopRow) (st : List (Int × ℚ) × Option ℚ),
      (∀ r ∈ rows, r.sex = "0" → pyInt r.age.data ≠ some 999) →
      st.2 = none →
      (rows.foldlM loadStep st = Except.error Err.dataFormatError ∨
       ∃ st', rows.foldlM loadStep st = Except.ok st' ∧ st'.2 = none ∧
         ((st.1 ≠ [] ∨ ∃ r ∈ rows, r.sex = "0") → st'.1 ≠ [])) := by
  intro rows
  induction rows with
  | nil =>
    intro st _ h2
    right
    refine ⟨st, rfl, h2, ?_⟩
    rintro (hne | ⟨r, hr, _⟩)
    · exact hne
    · cases hr
  | cons r t ih =>
    intro st hnos h2
    rw [List.foldlM_cons]
    cases e : loadStep st r with
    | error err =>
      left
      show Except.error err = Except.error Err.dataFormatError
      rw [loadStep_error e]
    | ok st2 =>
      simp only [except_bind_ok]
      obtain ⟨h22, hgrow, hbs2⟩ := loadStep_ok_inv (hnos r (by simp)) e
      rcases ih st2 (fun x hx => hnos x (List.mem_cons_of_mem r hx)) (h22.trans h2)
        with herr | ⟨st', hok, hn2, himp⟩
      · left
        exact herr
      · right
        refine ⟨st', hok, hn2, ?_⟩
        rintro (hne | ⟨r', hr', hsex'⟩)
        · exact himp (Or.inl (hgrow hne))
        · rcases List.mem_cons.mp hr' with rfl | hmem
          · exact himp (Or.inl (hbs2 hsex'))
          · exact himp (Or.inr ⟨r', hmem, hsex'⟩)

theorem loadStep_ok_parse {st : List (Int × ℚ) × Option ℚ} {row : PopRow}
    (h : row.sex = "0" → (pyInt row.age.data).isSome ∧ (pyRat row.pop.data).isSome) :
    loadStep st row = Except.ok (pureStep st row) := by
  unfold loadStep pureStep
  by_cases hs : row.sex = "0"
  · obtain ⟨h1, h2⟩ := h hs
    rw [if_pos hs, if_pos hs]
    cases e1 : pyInt row.age.data with
    | none => rw [e1] at h1; simp at h1
    | some a =>
      cases e2 : pyRat row.pop.data with
      | none => rw [e2] at h2; simp at h2
      | some v =>
        by_cases ha : a = 999 <;> simp [ha]
  · rw [if_neg hs, if_neg hs]

theorem loadFold_ok : ∀ (rows : List PopRow) (st : List (Int × ℚ) × Option ℚ),
    (∀ r ∈ rows, r.sex = "0" → (pyInt r.age.data).isSome ∧ (pyRat r.pop.data).isSome) →
    rows.foldlM loadStep st = Except.ok (rows.foldl pureStep st) := by
  intro rows
  induction rows with
  | nil => intro st _; rfl
  | cons r t ih =>
    intro st h
    rw [List.foldlM_cons, loadStep_ok_parse (h r (by simp)), except_bind_ok,
      List.foldl_cons, ih _ (fun x hx hsx => h x (List.mem_cons_of_mem r hx) hsx)]

theorem loadFold_skip : ∀ (rows : List PopRow) (st : List (Int × ℚ) × Option ℚ),
    (∀ r ∈ rows, r.sex ≠ "0") → rows.foldlM loadStep st = Except.ok st := by
  intro rows
  induction rows with
  | nil => intro st _; rfl
  | cons r t ih =>
    intro st h
    rw [List.foldlM_cons]
    have hstep : loadStep st r = Except.ok st := by
      unfold loadStep
      rw [if_neg (h r (by simp))]
    rw [hstep, except_bind_ok, ih st (fun x hx => h x (List.mem_cons_of_mem r hx))]

theorem dictInsert_mem_keys (k : Int) (v : ℚ) (d : List (Int × ℚ)) :
    k ∈ (dictInsert k v d).map (fun p => p.1) := by
  induction d with
  | nil => simp [dictInsert]
  | cons p rest ih =>
    unfold dictInsert
    by_cases h : p.1 = k <;> simp [h, ih]

theorem dictInsert_keys_mono (k : Int) (v : ℚ) :
    ∀ (d : List (Int × ℚ)) (a : Int), a ∈ d.map (fun p => p.1) →
      a ∈ (dictInsert k v d).map (fun p => p.1) := by
  intro d
  induction d with
  | nil => intro a ha; cases ha
  | cons p rest ih =>
    intro a ha
    rw [List.map_cons] at ha
    simp only [dictInsert]
    by_cases h : p.1 = k
    · rw [if_pos h, List.map_cons]
      rcases List.mem_cons.mp ha with h1 | h2
      · have h1' : a = p.1 := h1
        exact List.mem_cons.mpr
          (Or.inl (show a = (fun p : Int × ℚ => p.1) (k, v) from h1'.trans h))
      · exact List.mem_cons.mpr (Or.inr h2)
    · rw [if_neg h, List.map_cons]
      rcases List.mem_cons.mp ha with h1 | h2
      · exact List.mem_cons.mpr (Or.inl h1)
      · exact List.mem_cons.mpr (Or.inr (ih a h2))

theorem pureStep_keys_mono : ∀ (rows : List PopRow)
    (st : List (Int × ℚ) × Option ℚ) (a : Int),
    a ∈ st.1.map (fun p => p.1) →
    a ∈ (rows.foldl pureStep st).1.map (fun p => p.1) := by
  intro rows
  induction rows with
  | nil => intro st a ha; exact ha
  | cons r t ih =>
    intro st a ha
    rw [List.foldl_cons]
    apply ih
    unfold pureStep
    by_cases hs : r.sex = "0"
    · rw [if_pos hs]
      cases e1 : pyInt r.age.data with
      | none => exact ha
      | some b =>
        cases e2 : pyRat r.pop.data with
        | none => exact ha
        | some v =>
          show a ∈ ((if b = 999 then (st.1, some v)
            else (dictInsert b v st.1, st.2)).1).map (fun p => p.1)
          by_cases hb : b = 999
          · rw [if_pos hb]
            exact ha
          · rw [if_neg hb]
            exact dictInsert_keys_mono b v st.1 a ha
    · rw [if_neg hs]
      exact ha

theorem rawCounts_mem : ∀ (rows : List PopRow) (st : List (Int × ℚ) × Option ℚ)
    (r : PopRow), r ∈ rows → r.sex = "0" →
    ∀ a, pyInt r.age.data = some a → a ≠ 999 → (pyRat r.pop.data).isSome = true →
    a ∈ (rows.foldl pureStep st).1.map (fun p => p.1) := by
  intro rows
  induction rows with
  | nil => intro st r hr; cases hr
  | cons r0 t ih =>
    intro st r hr hsex a hage hne hpop
    rw [List.foldl_cons]
    rcases List.mem_cons.mp hr with rfl | hmem
    · apply pureStep_keys_mono
      unfold pureStep
      rw [if_pos hsex]
      cases e2 : pyRat r.pop.data with
      | none => rw [e2] at hpop; simp at hpop
      | some v =>
        rw [hage]
        show a ∈ ((if a = 999 then (st.1, some v)
          else (dictInsert a v st.1, st.2)).1).map (fun p => p.1)
        rw [if_neg hne]
        exact dictInsert_mem_keys a v st.1
    · exact ih (pureStep st r0) r hmem hsex a hage hne hpop

theorem lastTotal_from_sentinel : ∀ (rows : List PopRow)
    (st : List (Int × ℚ) × Option ℚ) (T : ℚ),
    (rows.foldl pureStep st).2 = some T →
    st.2 = some T ∨ ∃ r ∈ rows, r.sex = "0" ∧ pyInt r.age.data = some 999 ∧
      pyRat r.pop.data = some T := by
  intro rows
  induction rows with
  | nil => intro st T h; exact Or.inl h
  | cons r0 t ih =>
    intro st T h
    rw [List.foldl_cons] at h
    rcases ih (pureStep st r0) T h with h1 | ⟨r, hr, hprops⟩
    · unfold pureStep at h1
      by_cases hs : r0.sex = "0"
      · rw [if_pos hs] at h1
        cases e1 : pyInt r0.age.data with
        | none =>
          rw [e1] at h1
          exact Or.inl h1
        | some a =>
          rw [e1] at h1
          cases e2 : pyRat r0.pop.data with
          | none =>
            rw [e2] at h1
            exact Or.inl h1
          | some v =>
            rw [e2] at h1
            have h1' : (if a = 999 then (st.1, some v)
                else (dictInsert a v st.1, st.2)).2 = some T := h1
            by_cases ha : a = 999
            · rw [if_pos ha] at h1'
              have hvT : v = T := Option.some.inj h1'
              right
              refine ⟨r0, by simp, hs, ?_, ?_⟩
              · rw [e1, ha]
              · rw [e2, hvT]
            · rw [if_neg ha] at h1'
              exact Or.inl h1'
      · rw [if_neg hs] at h1
        exact Or.inl h1
    · exact Or.inr ⟨r, List.mem_cons_of_mem r0 hr, hprops⟩

/-- Counterexample to claim C7 as stated: a population source with no
both-sexes rows at all (here a single male-only row) contains no sentinel
grand-total row, yet the loader returns an empty table instead of failing
with a DataFormatError — the normalization loop never runs on an empty
dict, so the missing denominator is never noticed. -/
theorem C7_loader_counterexample :
    load_age_proportions [⟨"1", "50", "1000"⟩] = Except.ok [] := by decide

/-- Claim C7 (amended): (a) if the source has at least one both-sexes row
but no both-sexes sentinel (age 999) row, the loader fails with a
DataFormatError; (b) with no both-sexes rows at all it instead returns an
empty table without error; (c) when a sentinel row is present (all
both-sexes fields numeric, nonzero total) the loader succeeds, the
normalizing denominator T is the count of a both-sexes sentinel row,
every cell of the result is a collected raw count divided by T, and every
non-sentinel both-sexes age of the source appears among the raw counts. -/
theorem C7_loader_amended :
    (∀ rows : List PopRow, (∃ r ∈ rows, r.sex = "0") →
      (∀ r ∈ rows, r.sex = "0" → pyInt r.age.data ≠ some 999) →
      load_age_proportions rows = Except.error Err.dataFormatError) ∧
    (∀ rows : List PopRow, (∀ r ∈ rows, r.sex ≠ "0") →
      load_age_proportions rows = Except.ok []) ∧
    (∀ (rows : List PopRow) (T : ℚ),
      (∀ r ∈ rows, r.sex = "0" →
        (pyInt r.age.data).isSome ∧ (pyRat r.pop.data).isSome) →
      lastTotal rows = some T → T ≠ 0 →
      ((∃ r ∈ rows, r.sex = "0" ∧ pyInt r.age.data = some 999 ∧
          pyRat r.pop.data = some T) ∧
       load_age_proportions rows =
         Except.ok ((rawCounts rows).map (fun p => (p.1, p.2 / T))) ∧
       (∀ r ∈ rows, r.sex = "0" → ∀ a, pyInt r.age.data = some a → a ≠ 999 →
         a ∈ (rawCounts rows).map (fun p => p.1)))) := by
  refine ⟨?_, ?_, ?_⟩
  · intro rows hbs hnos
    unfold load_age_proportions
    rcases loadFold_noSentinel rows ([], none) hnos rfl with herr | ⟨st', hok, hn2, himp⟩
    · rw [herr]
      rfl
    · rw [hok, except_bind_ok, hn2]
      have hne : st'.1 ≠ [] := himp (Or.inr hbs)
      show (if st'.1.isEmpty then Except.ok [] else Except.error Err.dataFormatError) = _
      cases hst : st'.1 with
      | nil => exact absurd hst hne
      | cons p rest => rfl
  · intro rows hnb
    unfold load_age_proportions
    rw [loadFold_skip rows ([], none) hnb, except_bind_ok]
    rfl
  · intro rows T hparse hT hT0
    have hsent : ∃ r ∈ rows, r.sex = "0" ∧ pyInt r.age.data = some 999 ∧
        pyRat r.pop.data = some T := by
      have h2 : (rows.foldl pureStep ([], none)).2 = some T := hT
      rcases lastTotal_from_sentinel rows ([], none) T h2 with h1 | hgood
      · cases h1
      · exact hgood
    refine ⟨hsent, ?_, ?_⟩
    · unfold load_age_proportions
      rw [loadFold_ok rows ([], none) hparse, except_bind_ok]
      have h2 : (rows.foldl pureStep ([], none)).2 = some T := hT
      rw [h2]
      show ((rows.foldl pureStep ([], none)).1.mapM (fun p =>
        if T = 0 then Except.error Err.zeroDivisionError
        else Except.ok (p.1, p.2 / T))) = _
      rw [mapM_ok_of_ok _ (fun p => (p.1, p.2 / T)) _ (fun p _ => by rw [if_neg hT0])]
      rfl
    · intro r hr hsex a hage hne
      exact rawCounts_mem rows ([], none) r hr hsex a hage hne (hparse r hr hsex).2

/-- Witness for C7 (amended), part (c), at a concrete two-row source:
total 100, one data row of count 25. -/
theorem C7_loader_amended_witness :
    load_age_proportions [⟨"0", "999", "100"⟩, ⟨"0", "0", "25"⟩] =
      Except.ok ((rawCounts [⟨"0", "999", "100"⟩, ⟨"0", "0", "25"⟩]).map
        (fun p => (p.1, p.2 / (100 : ℚ)))) :=
  ((C7_loader_amended.2.2 [⟨"0", "999", "100"⟩, ⟨"0", "0", "25"⟩] 100
    (by decide) (by with_unfolding_all decide) (by with_unfolding_all decide)).2).1

/-! ## Claim C8 -/

/-- Claim C8: for a square matrix of parseable labels, the formatter's
line list is a header line (the fixed token "Age group" followed by the
group labels sorted ascending by parsed lower bound) and then one line
per group in that same order, each holding the label followed by its
row's rendered cells in the sorted column order; in particular the list
has matrix-size + 1 lines (two for a 1×1 matrix). -/
theorem C8_format_lines (render : ℚ → String) (m : MixMatrix)
    (hm : goodMatrix m = true) (hsq : squareB m = true) :
    ∃ gs : List String,
      gs.Perm (matKeys m) ∧
      gs.Pairwise (fun a b => minKeyD a ≤ minKeyD b) ∧
      format_lines render m = Except.ok
        (String.intercalate "," ("Age group" :: gs) ::
         gs.map (fun gi => String.intercalate ","
           (gi :: gs.map (fun gj => render (cellD m gi gj))))) ∧
      (∃ ls, format_lines render m = Except.ok ls ∧ ls.length = m.length + 1) ∧
      format_matrix render m = Except.ok (String.intercalate "\n"
        (String.intercalate "," ("Age group" :: gs) ::
         gs.map (fun gi => String.intercalate ","
           (gi :: gs.map (fun gj => render (cellD m gi gj)))))) := by
  have hkeyed : (m.mapM (fun r => do
      let t ← age_group_to_tuple r.1
      Except.ok (r.1, t.1)) : Except Err (List (String × Int))) =
      Except.ok (m.map (fun r => (r.1, minKeyD r.1))) := by
    apply mapM_ok_of_ok
    intro r hr
    obtain ⟨p, hp⟩ := goodLabel_exists (goodMatrix_mem hm hr)
    rw [hp]
    show Except.ok (r.1, p.1) = Except.ok (r.1, minKeyD r.1)
    unfold minKeyD
    rw [hp]
  set gs : List String := (List.insertionSort (fun a b => a.2 ≤ b.2)
    (m.map (fun r => (r.1, minKeyD r.1)))).map (fun p => p.1) with hgs
  have hperm : gs.Perm (matKeys m) := by
    rw [hgs]
    have h1 := List.perm_insertionSort (fun a b : String × Int => a.2 ≤ b.2)
      (m.map (fun r => (r.1, minKeyD r.1)))
    have h2 := h1.map (fun p : String × Int => p.1)
    have h3 : ((m.map (fun r => (r.1, minKeyD r.1))).map (fun p : String × Int => p.1)) =
        matKeys m := by
      rw [List.map_map]
      rfl
    rw [h3] at h2
    exact h2
  have hmemgs : ∀ g ∈ gs, g ∈ matKeys m := fun g hg => hperm.mem_iff.mp hg
  have hsorted0 : List.Sorted (fun a b : String × Int => a.2 ≤ b.2)
      (List.insertionSort (fun a b => a.2 ≤ b.2) (m.map (fun r => (r.1, minKeyD r.1)))) :=
    List.sorted_insertionSort (fun a b : String × Int => a.2 ≤ b.2)
      (m.map (fun r => (r.1, minKeyD r.1)))
  have hsorted : List.Pairwise (fun a b : String × Int => a.2 ≤ b.2)
      (List.insertionSort (fun a b => a.2 ≤ b.2) (m.map (fun r => (r.1, minKeyD r.1)))) :=
    hsorted0
  have hfact : ∀ p ∈ List.insertionSort (fun a b : String × Int => a.2 ≤ b.2)
      (m.map (fun r => (r.1, minKeyD r.1))), p.2 = minKeyD p.1 := by
    intro p hp
    have hpk : p ∈ m.map (fun r => (r.1, minKeyD r.1)) :=
      (List.perm_insertionSort _ _).mem_iff.mp hp
    obtain ⟨r, _, rfl⟩ := List.mem_map.mp hpk
    rfl
  have hpair : gs.Pairwise (fun a b => minKeyD a ≤ minKeyD b) := by
    rw [hgs]
    apply List.pairwise_map.mpr
    apply List.Pairwise.imp_of_mem ?_ hsorted
    intro a b ha hb hab
    have h2a := hfact a ha
    have h2b := hfact b hb
    rw [← h2a, ← h2b]
    exact hab
  have hrows : (gs.mapM (fun gi => do
      let cells ← gs.mapM (fun gj => do
        let v ← lookupCell m gi gj
        Except.ok (render v))
      Except.ok (String.intercalate "," (gi :: cells))) : Except Err (List String)) =
      Except.ok (gs.map (fun gi => String.intercalate ","
        (gi :: gs.map (fun gj => render (cellD m gi gj))))) := by
    apply mapM_ok_of_ok
    intro gi hgi
    have hinner : ∀ gj ∈ gs, (do
        let v ← lookupCell m gi gj
        Except.ok (render v) : Except Err String) = Except.ok (render (cellD m gi gj)) := by
      intro gj hgj
      rw [lookupCell_ok hsq (hmemgs gi hgi) (hmemgs gj hgj)]
      rfl
    rw [mapM_ok_of_ok _ (fun gj => render (cellD m gi gj)) gs hinner]
    rfl
  have hfl : format_lines render m = Except.ok
      (String.intercalate "," ("Age group" :: gs) ::
       gs.map (fun gi => String.intercalate ","
         (gi :: gs.map (fun gj => render (cellD m gi gj))))) := by
    simp only [format_lines]
    rw [hkeyed]
    simp only [except_bind_ok]
    rw [← hgs, hrows]
    simp only [except_bind_ok]
  have hlen : (String.intercalate "," ("Age group" :: gs) ::
      gs.map (fun gi => String.intercalate ","
        (gi :: gs.map (fun gj => render (cellD m gi gj))))).length = m.length + 1 := by
    rw [List.length_cons, List.length_map, hperm.length_eq]
    unfold matKeys
    rw [List.length_map]
  refine ⟨gs, hperm, hpair, hfl, ⟨_, hfl, hlen⟩, ?_⟩
  unfold format_matrix
  rw [hfl]
  rfl

/-- Witness for C8: formatting the 1×1 matrix with label "5-10" and value
0.042 yields a header line and one data line. -/
theorem C8_format_lines_witness :
    ∃ gs : List String,
      gs.Perm (matKeys [("5-10", [("5-10", (0.042 : ℚ))])]) ∧
      gs.Pairwise (fun a b => minKeyD a ≤ minKeyD b) ∧
      format_lines (fun q => toString q) [("5-10", [("5-10", (0.042 : ℚ))])] = Except.ok
        (String.intercalate "," ("Age group" :: gs) ::
         gs.map (fun gi => String.intercalate ","
           (gi :: gs.map (fun gj => (fun q => toString q)
             (cellD [("5-10", [("5-10", (0.042 : ℚ))])] gi gj))))) ∧
      (∃ ls, format_lines (fun q => toString q) [("5-10", [("5-10", (0.042 : ℚ))])] =
        Except.ok ls ∧ ls.length = [("5-10", [("5-10", (0.042 : ℚ))])].length + 1) ∧
      format_matrix (fun q => toString q) [("5-10", [("5-10", (0.042 : ℚ))])] =
        Except.ok (String.intercalate "\n"
          (String.intercalate "," ("Age group" :: gs) ::
           gs.map (fun gi => String.intercalate ","
             (gi :: gs.map (fun gj => (fun q => toString q)
               (cellD [("5-10", [("5-10", (0.042 : ℚ))])] gi gj)))))) :=
  C8_format_lines (fun q => toString q) [("5-10", [("5-10", (0.042 : ℚ))])]
    (by decide) (by decide)
